import Mathlib

/-
Verification of the pi_ano matrix-keyboard instrument (pi_ano.c).

The development shallowly embeds the hardware-independent core of the
program: the key/voice state machine (updateKeys and the helpers it calls,
pi_ano.c lines 140-188 and 341-420), the watchdog heartbeat timer of the
main loop (lines 524-564), and the configuration reader
setValuesFromConfig (lines 230-319).

C global state is gathered into a PianoState record; the tone backend and
the log file are modelled as an event trace (a softToneWrite call with a
nonzero frequency is a toneStart event, softToneWrite with 0 is toneStop,
and an octave change is an octaveChange event).  The frequency value
itself is computed by keyToFreq with double precision pow, so events
record the inputs (key, octave) that determine it rather than the bits of
the result.  C ints are embedded as Int; matrices hold the same int
values the C arrays hold (0/1 for the key matrices, pin numbers for the
buzzer matrices).
-/

namespace PiAno

/-- One matrix snapshot, indexed by (row, column) like the C arrays. -/
abbrev Snapshot := (Fin 4 × Fin 4) → Int

/-- Observable events of the state machine: tone started on a pin
(recording the key and octave that determine the frequency), tone
stopped on a pin, and octave changes. -/
inductive Event where
  | toneStart (pin : Int) (key : Int) (octave : Int)
  | toneStop (pin : Int)
  | octaveChange (newOctave : Int)
  deriving DecidableEq, Repr

/-- The buzzer output pins, pi_ano.c line 37: {14, 15, 18, 23}. -/
def buzzerPins : Fin 4 → Int
  | 0 => 14
  | 1 => 15
  | 2 => 18
  | 3 => 23

/-- The key identity map, pi_ano.c line 41: keys[row][col], row-major
values 0..15. -/
def keys : Fin 4 × Fin 4 → Int
  | (0, 0) => 0
  | (0, 1) => 1
  | (0, 2) => 2
  | (0, 3) => 3
  | (1, 0) => 4
  | (1, 1) => 5
  | (1, 2) => 6
  | (1, 3) => 7
  | (2, 0) => 8
  | (2, 1) => 9
  | (2, 2) => 10
  | (2, 3) => 11
  | (3, 0) => 12
  | (3, 1) => 13
  | (3, 2) => 14
  | (3, 3) => 15

/-- The mutable globals of pi_ano.c lines 44-54 gathered in one record. -/
structure PianoState where
  activeKeyMatrix : (Fin 4 × Fin 4) → Int
  activeBuzzerMatrix : (Fin 4 × Fin 4) → Int
  activeBuzzers : Fin 4 → Int
  buzzerCount : Int
  currentOctave : Int

/-- The startup state: all matrices zero, no buzzer bound, default
octave 4 (pi_ano.c lines 44-54). -/
def initState : PianoState where
  activeKeyMatrix := fun _ => 0
  activeBuzzerMatrix := fun _ => 0
  activeBuzzers := fun _ => 0
  buzzerCount := 0
  currentOctave := 4

/-- clearFrequency (pi_ano.c lines 141-151): softToneWrite(pin, 0). -/
def clearFrequency (pin : Int) : List Event :=
  [Event.toneStop pin]

/-- playFrequency (pi_ano.c lines 154-175): guarded by
0 < octave < 8 and buzzerCount < 4, then softToneWrite of the
keyToFreq result. -/
def playFrequency (key octave pin count : Int) : List Event :=
  if 0 < octave ∧ octave < 8 then
    if count < 4 then [Event.toneStart pin key octave] else []
  else []

/-- disableBuzzer (pi_ano.c lines 178-188): clear the frequency, zero
every activeBuzzers slot holding this pin, decrement buzzerCount. -/
def disableBuzzer (pin : Int) (s : PianoState) : PianoState × List Event :=
  ({ s with
      activeBuzzers := fun k => if s.activeBuzzers k = pin then 0 else s.activeBuzzers k,
      buzzerCount := s.buzzerCount - 1 },
   clearFrequency pin)

/-- The buzzer-slot search of pi_ano.c lines 358-365: first index k with
activeBuzzers[k] == 0, in the fixed order 0, 1, 2, 3. -/
def findFree (ab : Fin 4 → Int) : Option (Fin 4) :=
  if ab 0 = 0 then some 0
  else if ab 1 = 0 then some 1
  else if ab 2 = 0 then some 2
  else if ab 3 = 0 then some 3
  else none

/-- The chromatic press branch of updateKeys (pi_ano.c lines 353-371):
mark the cell active, bind the first free buzzer slot (pin 0 and no slot
change if none is free), call playFrequency, record the pin in
activeBuzzerMatrix and increment buzzerCount. -/
def pressChromatic (c : Fin 4 × Fin 4) (s : PianoState) : PianoState × List Event :=
  let pinAb : Int × (Fin 4 → Int) :=
    match findFree s.activeBuzzers with
    | some k => (buzzerPins k, Function.update s.activeBuzzers k (buzzerPins k))
    | none => (0, s.activeBuzzers)
  ({ s with
      activeKeyMatrix := Function.update s.activeKeyMatrix c 1,
      activeBuzzers := pinAb.2,
      activeBuzzerMatrix := Function.update s.activeBuzzerMatrix c pinAb.1,
      buzzerCount := s.buzzerCount + 1 },
   playFrequency (keys c) s.currentOctave pinAb.1 s.buzzerCount)

/-- The octave branches of updateKeys (pi_ano.c lines 375-404): key 0
increments the octave when it is below 4, key 1 decrements it when it is
above 1; a change also marks the cell active and is logged. -/
def octaveStep (c : Fin 4 × Fin 4) (se : PianoState × List Event) : PianoState × List Event :=
  if keys c = 0 then
    if se.1.currentOctave < 4 then
      ({ se.1 with
          currentOctave := se.1.currentOctave + 1,
          activeKeyMatrix := Function.update se.1.activeKeyMatrix c 1 },
       se.2 ++ [Event.octaveChange (se.1.currentOctave + 1)])
    else se
  else if keys c = 1 then
    if 1 < se.1.currentOctave then
      ({ se.1 with
          currentOctave := se.1.currentOctave - 1,
          activeKeyMatrix := Function.update se.1.activeKeyMatrix c 1 },
       se.2 ++ [Event.octaveChange (se.1.currentOctave - 1)])
    else se
  else se

/-- The release branch of updateKeys (pi_ano.c lines 406-417): a
chromatic cell disables its bound buzzer and clears both matrices at the
cell; keys 0..2 only clear the key matrix. -/
def releaseStep (c : Fin 4 × Fin 4) (s : PianoState) : PianoState × List Event :=
  if 2 ≤ keys c ∧ keys c ≤ 14 then
    let r := disableBuzzer (s.activeBuzzerMatrix c) s
    ({ r.1 with
        activeBuzzerMatrix := Function.update r.1.activeBuzzerMatrix c 0,
        activeKeyMatrix := Function.update r.1.activeKeyMatrix c 0 },
     r.2)
  else if 0 ≤ keys c ∧ keys c ≤ 2 then
    ({ s with activeKeyMatrix := Function.update s.activeKeyMatrix c 0 }, [])
  else (s, [])

/-- Handling of one cell by updateKeys (pi_ano.c lines 348-417): a press
edge runs the chromatic branch (guarded by buzzerCount < 4 and
2 <= key <= 14) followed by the octave branches; a release edge runs the
release branch; anything else is a no-op. -/
def cellStep (u : Snapshot) (c : Fin 4 × Fin 4) (s : PianoState) : PianoState × List Event :=
  if u c = 1 ∧ s.activeKeyMatrix c = 0 then
    octaveStep c
      (if s.buzzerCount < 4 then
        (if 2 ≤ keys c ∧ keys c ≤ 14 then pressChromatic c s else (s, []))
      else (s, []))
  else if u c = 0 ∧ s.activeKeyMatrix c = 1 then
    releaseStep c s
  else (s, [])

/-- The 16 cells in the row-major order of the nested loops of
updateKeys (pi_ano.c lines 344-345). -/
def cellsList : List (Fin 4 × Fin 4) :=
  [(0, 0), (0, 1), (0, 2), (0, 3),
   (1, 0), (1, 1), (1, 2), (1, 3),
   (2, 0), (2, 1), (2, 2), (2, 3),
   (3, 0), (3, 1), (3, 2), (3, 3)]

/-- Run cellStep over a list of cells, threading the state and
concatenating the event trace in order. -/
def foldCells (u : Snapshot) : List (Fin 4 × Fin 4) → PianoState → PianoState × List Event
  | [], s => (s, [])
  | c :: rest, s =>
    let r1 := cellStep u c s
    let r2 := foldCells u rest r1.1
    (r2.1, r1.2 ++ r2.2)

/-- updateKeys (pi_ano.c lines 341-420): process every cell in row-major
order. -/
def updateKeys (u : Snapshot) (s : PianoState) : PianoState × List Event :=
  foldCells u cellsList s

/-- Feed a sequence of snapshots through updateKeys. -/
def runUpdates (s : PianoState) : List Snapshot → PianoState
  | [] => s
  | u :: rest => runUpdates (updateKeys u s).1 rest

/-- Number of nonzero activeBuzzers slots (bound voices). -/
def heldSlots (ab : Fin 4 → Int) : Nat :=
  (List.finRange 4).countP fun k => ab k != 0

/-- Number of zero activeBuzzers slots (free voices). -/
def freeSlots (ab : Fin 4 → Int) : Nat :=
  (List.finRange 4).countP fun k => ab k == 0

/-- Number of cells with a nonzero activeBuzzerMatrix entry. -/
def activeCells (abm : (Fin 4 × Fin 4) → Int) : Nat :=
  cellsList.countP fun c => abm c != 0

/-- The watchdog heartbeat loop of main (pi_ano.c lines 524-564): each
cycle adds 48 ms to the timer; when the timer reaches half of
wdTimer * 1000 ms a keepalive pulse is issued and the timer resets to 0.
Returns (timer value, number of pulses issued) after n cycles. -/
def wdRun (wdTimer : Int) : Nat → Int × Nat
  | 0 => (0, 0)
  | n + 1 =>
    let r := wdRun wdTimer n
    let t := r.1 + 48
    if wdTimer * 1000 / 2 ≤ t then (0, r.2 + 1) else (t, r.2)

/-- The digit-accumulating inner loop of setValuesFromConfig
(pi_ano.c lines 255-265): scan to the end of the line (a 0 byte), adding
each decimal digit to the accumulator; lastChar follows every character
read.  The C accumulator is a 32-bit int, so each step wraps modulo
2^32; the accumulator here is the unsigned 32-bit residue (the signed
reading is recovered by intOfUInt32 below, matching two-s-complement
wraparound). -/
def scanDigits : List Nat → Nat → Nat → Nat × Nat
  | [], acc, lc => (acc, lc)
  | c :: rest, acc, lc =>
    if c = 0 then (acc, lc)
    else if 48 ≤ c ∧ c ≤ 57 then scanDigits rest ((acc * 10 + (c - 48)) % 4294967296) c
    else scanDigits rest acc c

/-- The log-file-name inner loop of setValuesFromConfig (pi_ano.c lines
286-299): consume characters until a newline or the 0 terminator; every
character that is neither a colon nor a space is copied to
logFileName[j] with j incremented, and lastChar follows every consumed
character.  Returns (copied characters, unconsumed suffix, new
lastChar).  The copy writes logFileName[0..j-1] and then the 0
terminator at index j, where j is the length of the copied list; the
destination in main is the 100-byte array logFileLocation
(pi_ano.c line 442), and the C loop performs these writes without any
bound check. -/
def copyLogName : List Nat → Nat → List Nat × List Nat × Nat
  | [], lc => ([], [], lc)
  | c :: rest, lc =>
    if c = 0 ∨ c = 10 then ([], c :: rest, lc)
    else
      let r := copyLogName rest c
      (if c = 58 ∨ c = 32 then r.1 else c :: r.1, r.2.1, r.2.2)

/-- After the third value is read, the outer character loop of
setValuesFromConfig only advances lastChar until the 0 terminator (no
branch fires once value = 3). -/
def scanTail : List Nat → Nat → Nat
  | [], lc => lc
  | c :: rest, lc => if c = 0 then lc else scanTail rest c

/-- The outer character loop of setValuesFromConfig (pi_ano.c lines
250-305) on one line: a space following a colon triggers the
digit loop for value 0 (octave) and value 1 (watchdog timer) and the
name-copy loop for value 2; every other character just becomes
lastChar.  State is (value, octave, wdTimer, lastChar, copied log
name if the name branch fired on this line). -/
def lineScan : List Nat → Nat → Nat → Nat → Nat → Nat × Nat × Nat × Nat × Option (List Nat)
  | [], value, oct, wd, lc => (value, oct, wd, lc, none)
  | c :: rest, value, oct, wd, lc =>
    if c = 0 then (value, oct, wd, lc, none)
    else if c = 32 ∧ lc = 58 ∧ value = 0 then
      let r := scanDigits (c :: rest) oct lc
      (1, r.1, wd, r.2, none)
    else if c = 32 ∧ lc = 58 ∧ value = 1 then
      let r := scanDigits (c :: rest) wd lc
      (2, oct, r.1, r.2, none)
    else if c = 32 ∧ lc = 58 ∧ value = 2 then
      let r := copyLogName rest c
      (3, oct, wd, scanTail r.2.1 r.2.2, some r.1)
    else lineScan rest value oct wd c

/-- The line loop of setValuesFromConfig (pi_ano.c lines 244-307): lines
starting with a character 35 are comments and are skipped entirely;
value, the parsed numbers and lastChar persist across lines.  Returns
the two parsed 32-bit residues and the copied log name (none when the
name branch never fired; it fires at most once since value then
becomes 3). -/
def configScan : List (List Nat) → Nat → Nat → Nat → Nat → Nat × Nat × Option (List Nat)
  | [], _, oct, wd, _ => (oct, wd, none)
  | line :: rest, value, oct, wd, lc =>
    if line.headD 0 = 35 then configScan rest value oct wd lc
    else
      let r := lineScan line value oct wd lc
      let q := configScan rest r.1 r.2.1 r.2.2.1 r.2.2.2.1
      (q.1, q.2.1,
        match r.2.2.2.2 with
        | some nm => some nm
        | none => q.2.2)

/-- The signed reading of an unsigned 32-bit residue, as a C int holding
that bit pattern compares. -/
def intOfUInt32 (n : Nat) : Int :=
  if n < 2147483648 then (n : Int) else (n : Int) - 4294967296

/-- setValuesFromConfig (pi_ano.c lines 230-319): parse the file (octave
and wdTimer both start at 0), then clamp the signed 32-bit values: an
octave outside [1,4] becomes 4 with a warning, a wdTimer outside [1,15]
becomes 10 with a warning.  Result: ((octave, wdTimer),
(octave warning, timer warning), copied log name).  A file is a list of
lines, each line the character codes fgets placed in the buffer before
the 0 terminator. -/
def setValuesFromConfig (file : List (List Nat)) :
    (Int × Int) × (Bool × Bool) × Option (List Nat) :=
  let r := configScan file 0 0 0 0
  let octv := intOfUInt32 r.1
  let wdv := intOfUInt32 r.2.1
  let oct : Int × Bool := if octv < 1 ∨ 4 < octv then (4, true) else (octv, false)
  let wd : Int × Bool := if wdv < 1 ∨ 15 < wdv then (10, true) else (wdv, false)
  ((oct.1, wd.1), (oct.2, wd.2), r.2.2)

/-- A snapshot pressing exactly the given cells. -/
def snapOf (l : List (Fin 4 × Fin 4)) : Snapshot :=
  fun c => if c ∈ l then 1 else 0

/-- Key matrix entries are 0 or 1. -/
def akmBool (s : PianoState) : Prop :=
  ∀ c, s.activeKeyMatrix c = 0 ∨ s.activeKeyMatrix c = 1

/-- Slot k of activeBuzzers is either free (0) or holds its own pin. -/
def abCanon (s : PianoState) : Prop :=
  ∀ k, s.activeBuzzers k = 0 ∨ s.activeBuzzers k = buzzerPins k

/-- A cell has a bound buzzer exactly when it is an active chromatic
cell. -/
def abmLink (s : PianoState) : Prop :=
  ∀ c, s.activeBuzzerMatrix c ≠ 0 ↔ (2 ≤ keys c ∧ keys c ≤ 14 ∧ s.activeKeyMatrix c = 1)

/-- The pin bound to a cell is a buzzer pin whose slot is held. -/
def abmHeld (s : PianoState) : Prop :=
  ∀ c, s.activeBuzzerMatrix c ≠ 0 →
    ∃ k, s.activeBuzzerMatrix c = buzzerPins k ∧ s.activeBuzzers k = buzzerPins k

/-- Two different cells never hold the same pin. -/
def abmInj (s : PianoState) : Prop :=
  ∀ c1 c2, s.activeBuzzerMatrix c1 ≠ 0 →
    s.activeBuzzerMatrix c2 = s.activeBuzzerMatrix c1 → c2 = c1

/-- Every held slot is owned by some cell. -/
def slotOwned (s : PianoState) : Prop :=
  ∀ k, s.activeBuzzers k = buzzerPins k → ∃ c, s.activeBuzzerMatrix c = buzzerPins k

/-- buzzerCount agrees with both ways of counting bound voices. -/
def countOk (s : PianoState) : Prop :=
  s.buzzerCount = (heldSlots s.activeBuzzers : Int) ∧
  s.buzzerCount = (activeCells s.activeBuzzerMatrix : Int)

/-- The octave stays within the hard bounds of updateKeys. -/
def octaveOk (s : PianoState) : Prop :=
  1 ≤ s.currentOctave ∧ s.currentOctave ≤ 4

/-- The unused cell (key 15) is never marked active. -/
def key15Clear (s : PianoState) : Prop :=
  ∀ c, keys c = 15 → s.activeKeyMatrix c = 0

/-- The bookkeeping invariant of the voice pool, preserved by every
updateKeys call. -/
def Inv (s : PianoState) : Prop :=
  akmBool s ∧ abCanon s ∧ abmLink s ∧ abmHeld s ∧ abmInj s ∧ slotOwned s ∧
  countOk s ∧ octaveOk s ∧ key15Clear s

instance : DecidablePred Inv := fun s => by
  unfold Inv akmBool abCanon abmLink abmHeld abmInj slotOwned countOk octaveOk key15Clear
  infer_instance

theorem buzzerPins_ne_zero : ∀ k : Fin 4, buzzerPins k ≠ 0 := by decide

theorem buzzerPins_injective : ∀ k1 k2 : Fin 4, buzzerPins k1 = buzzerPins k2 → k1 = k2 := by
  decide

theorem keys_range : ∀ c : Fin 4 × Fin 4, 0 ≤ keys c ∧ keys c ≤ 15 := by decide

theorem keys_rowMajor : ∀ c : Fin 4 × Fin 4, keys c = 4 * (c.1 : Int) + (c.2 : Int) := by decide

theorem mem_cellsList : ∀ c : Fin 4 × Fin 4, c ∈ cellsList := by decide

theorem nodup_cellsList : cellsList.Nodup := by decide

/-- Counting through a pointwise update: the count of the updated
function plus the old value contribution equals the old count plus the
new value contribution. -/
theorem countP_comp_update {α β : Type} [DecidableEq α] (q : β → Bool) (f : α → β)
    (a : α) (v : β) :
    ∀ l : List α, l.Nodup → a ∈ l →
      l.countP (fun x => q (Function.update f a v x)) + (if q (f a) then 1 else 0) =
      l.countP (fun x => q (f x)) + (if q v then 1 else 0) := by
  intro l
  induction l with
  | nil => intro _ ha; exact absurd ha (List.not_mem_nil a)
  | cons b t ih =>
    intro hnd hmem
    have hbt : b ∉ t := (List.nodup_cons.mp hnd).1
    have hndt : t.Nodup := (List.nodup_cons.mp hnd).2
    rw [List.countP_cons, List.countP_cons]
    rcases List.mem_cons.mp hmem with rfl | hat
    · have ht : t.countP (fun x => q (Function.update f a v x)) =
          t.countP (fun x => q (f x)) := by
        apply List.countP_congr
        intro x hx
        have hxa : x ≠ a := fun h => hbt (h ▸ hx)
        rw [Function.update_noteq hxa]
      rw [Function.update_same, ht]
      omega
    · have hba : b ≠ a := fun h => hbt (h ▸ hat)
      rw [Function.update_noteq hba]
      have ih2 := ih hndt hat
      omega

theorem heldSlots_update (ab : Fin 4 → Int) (k : Fin 4) (v : Int) :
    heldSlots (Function.update ab k v) + (if ab k != 0 then 1 else 0) =
    heldSlots ab + (if v != 0 then 1 else 0) :=
  countP_comp_update (fun z => z != 0) ab k v (List.finRange 4)
    (List.nodup_finRange 4) (List.mem_finRange k)

theorem freeSlots_update (ab : Fin 4 → Int) (k : Fin 4) (v : Int) :
    freeSlots (Function.update ab k v) + (if ab k == 0 then 1 else 0) =
    freeSlots ab + (if v == 0 then 1 else 0) :=
  countP_comp_update (fun z => z == 0) ab k v (List.finRange 4)
    (List.nodup_finRange 4) (List.mem_finRange k)

theorem activeCells_update (abm : (Fin 4 × Fin 4) → Int) (c : Fin 4 × Fin 4) (v : Int) :
    activeCells (Function.update abm c v) + (if abm c != 0 then 1 else 0) =
    activeCells abm + (if v != 0 then 1 else 0) :=
  countP_comp_update (fun z => z != 0) abm c v cellsList nodup_cellsList (mem_cellsList c)

theorem heldSlots_le_four (ab : Fin 4 → Int) : heldSlots ab ≤ 4 := by
  have h := List.countP_le_length (p := fun k => ab k != 0) (l := List.finRange 4)
  simpa [heldSlots] using h

theorem heldSlots_eq_four (ab : Fin 4 → Int) (h : ∀ k, ab k ≠ 0) : heldSlots ab = 4 := by
  have h4 : (List.finRange 4).length = 4 := by simp
  have he : (List.finRange 4).countP (fun k => ab k != 0) = (List.finRange 4).length :=
    List.countP_eq_length.mpr (by intro k _; simpa using h k)
  rw [h4] at he
  exact he

theorem findFree_some (ab : Fin 4 → Int) (hx : ∃ k, ab k = 0) :
    ∃ k, findFree ab = some k ∧ ab k = 0 := by
  unfold findFree
  split_ifs with h0 h1 h2 h3
  · exact ⟨0, rfl, h0⟩
  · exact ⟨1, rfl, h1⟩
  · exact ⟨2, rfl, h2⟩
  · exact ⟨3, rfl, h3⟩
  · obtain ⟨k, hk⟩ := hx
    exfalso
    fin_cases k <;> simp_all

theorem pressChromatic_eq (c : Fin 4 × Fin 4) (s : PianoState) (k : Fin 4)
    (hk : findFree s.activeBuzzers = some k) :
    pressChromatic c s =
      ({ s with
          activeKeyMatrix := Function.update s.activeKeyMatrix c 1,
          activeBuzzers := Function.update s.activeBuzzers k (buzzerPins k),
          activeBuzzerMatrix := Function.update s.activeBuzzerMatrix c (buzzerPins k),
          buzzerCount := s.buzzerCount + 1 },
       playFrequency (keys c) s.currentOctave (buzzerPins k) s.buzzerCount) := by
  unfold pressChromatic
  rw [hk]

/-- A chromatic press with a free voice preserves the pool invariant. -/
theorem pressChromatic_inv (c : Fin 4 × Fin 4) (s : PianoState) (hInv : Inv s)
    (hakm : s.activeKeyMatrix c = 0) (hch : 2 ≤ keys c ∧ keys c ≤ 14)
    (hcnt : s.buzzerCount < 4) : Inv (pressChromatic c s).1 := by
  obtain ⟨hb, hcan, hlink, hheld, hinj, hown, ⟨hcs, hcc⟩, hoct, h15⟩ := hInv
  have hex : ∃ k, s.activeBuzzers k = 0 := by
    by_contra hno
    push_neg at hno
    have h4 := heldSlots_eq_four s.activeBuzzers hno
    omega
  obtain ⟨k, hffk, hkfree⟩ := findFree_some s.activeBuzzers hex
  have habm0 : s.activeBuzzerMatrix c = 0 := by
    by_contra hne
    have h1 := (hlink c).mp hne
    rw [hakm] at h1
    exact absurd h1.2.2 (by norm_num)
  rw [pressChromatic_eq c s k hffk]
  refine ⟨?_, ?_, ?_, ?_, ?_, ?_, ⟨?_, ?_⟩, ?_, ?_⟩
  · intro c1
    simp only []
    by_cases h : c1 = c
    · subst h; rw [Function.update_same]; right; rfl
    · rw [Function.update_noteq h]; exact hb c1
  · intro k1
    simp only []
    by_cases h : k1 = k
    · subst h; rw [Function.update_same]; right; rfl
    · rw [Function.update_noteq h]; exact hcan k1
  · intro c1
    simp only []
    by_cases h : c1 = c
    · subst h
      rw [Function.update_same, Function.update_same]
      constructor
      · intro _; exact ⟨hch.1, hch.2, rfl⟩
      · intro _; exact buzzerPins_ne_zero k
    · rw [Function.update_noteq h, Function.update_noteq h]
      exact hlink c1
  · intro c1
    simp only []
    intro hne1
    by_cases h : c1 = c
    · subst h
      rw [Function.update_same]
      exact ⟨k, rfl, Function.update_same k (buzzerPins k) s.activeBuzzers⟩
    · rw [Function.update_noteq h] at hne1 ⊢
      obtain ⟨k1, hk1, hk2⟩ := hheld c1 hne1
      have hkk : k1 ≠ k := by
        intro he
        subst he
        rw [hkfree] at hk2
        exact buzzerPins_ne_zero k1 hk2.symm
      exact ⟨k1, hk1, by rw [Function.update_noteq hkk]; exact hk2⟩
  · intro c1 c2
    simp only []
    intro h1 h2
    by_cases e1 : c1 = c <;> by_cases e2 : c2 = c
    · subst e1; subst e2; rfl
    · subst e1
      rw [Function.update_same] at h2
      rw [Function.update_noteq e2] at h2
      exfalso
      have hne2 : s.activeBuzzerMatrix c2 ≠ 0 := by
        rw [h2]; exact buzzerPins_ne_zero k
      obtain ⟨k2, hk2a, hk2b⟩ := hheld c2 hne2
      rw [h2] at hk2a
      have hkk : k2 = k := buzzerPins_injective k2 k hk2a.symm
      subst hkk
      rw [hkfree] at hk2b
      exact buzzerPins_ne_zero k2 hk2b.symm
    · subst e2
      rw [Function.update_noteq e1] at h1 h2
      rw [Function.update_same] at h2
      exfalso
      obtain ⟨k1, hk1a, hk1b⟩ := hheld c1 h1
      rw [hk1a] at h2
      have hkk : k1 = k := buzzerPins_injective k1 k h2.symm
      subst hkk
      rw [hkfree] at hk1b
      exact buzzerPins_ne_zero k1 hk1b.symm
    · rw [Function.update_noteq e1] at h1
      rw [Function.update_noteq e1] at h2
      rw [Function.update_noteq e2] at h2
      exact hinj c1 c2 h1 h2
  · intro k1
    simp only []
    intro hk1
    by_cases h : k1 = k
    · subst h
      exact ⟨c, Function.update_same c (buzzerPins k1) s.activeBuzzerMatrix⟩
    · rw [Function.update_noteq h] at hk1
      obtain ⟨c1, hc1⟩ := hown k1 hk1
      have hcc1 : c1 ≠ c := by
        intro he
        subst he
        rw [habm0] at hc1
        exact buzzerPins_ne_zero k1 hc1.symm
      exact ⟨c1, by rw [Function.update_noteq hcc1]; exact hc1⟩
  · simp only []
    have h1 := heldSlots_update s.activeBuzzers k (buzzerPins k)
    rw [hkfree] at h1
    simp only [bne_self_eq_false, Bool.false_eq_true, if_false] at h1
    rw [if_pos (by simpa using buzzerPins_ne_zero k)] at h1
    omega
  · simp only []
    have h1 := activeCells_update s.activeBuzzerMatrix c (buzzerPins k)
    rw [habm0] at h1
    simp only [bne_self_eq_false, Bool.false_eq_true, if_false] at h1
    rw [if_pos (by simpa using buzzerPins_ne_zero k)] at h1
    omega
  · exact hoct
  · intro c1 hk15
    simp only []
    by_cases h : c1 = c
    · subst h; exact absurd hk15 (by omega)
    · rw [Function.update_noteq h]; exact h15 c1 hk15

/-- An octave change within bounds preserves the invariant.  The
hypothesis keys c ≤ 1 covers both octave keys; the new octave value is
given abstractly with its bounds. -/
theorem octaveSet_inv (c : Fin 4 × Fin 4) (s : PianoState) (hInv : Inv s)
    (hk : keys c ≤ 1) (v : Int) (hv1 : 1 ≤ v) (hv4 : v ≤ 4) :
    Inv { s with
            currentOctave := v,
            activeKeyMatrix := Function.update s.activeKeyMatrix c 1 } := by
  obtain ⟨hb, hcan, hlink, hheld, hinj, hown, ⟨hcs, hcc⟩, hoct, h15⟩ := hInv
  have hk0 : 0 ≤ keys c := (keys_range c).1
  refine ⟨?_, hcan, ?_, hheld, hinj, hown, ⟨hcs, hcc⟩, ⟨hv1, hv4⟩, ?_⟩
  · intro c1
    simp only []
    by_cases h : c1 = c
    · subst h; rw [Function.update_same]; right; rfl
    · rw [Function.update_noteq h]; exact hb c1
  · intro c1
    simp only []
    by_cases h : c1 = c
    · subst h
      constructor
      · intro hne; exact absurd ((hlink c1).mp hne).1 (by omega)
      · rintro ⟨h2, -, -⟩; exact absurd h2 (by omega)
    · rw [Function.update_noteq h]; exact hlink c1
  · intro c1 hk15
    simp only []
    by_cases h : c1 = c
    · subst h; exact absurd hk15 (by omega)
    · rw [Function.update_noteq h]; exact h15 c1 hk15

/-- The octave branches preserve the invariant. -/
theorem octaveStep_inv (c : Fin 4 × Fin 4) (se : PianoState × List Event)
    (h : Inv se.1) : Inv (octaveStep c se).1 := by
  obtain ⟨hb, hcan, hlink, hheld, hinj, hown, ⟨hcs, hcc⟩, ⟨hoa, hob⟩, h15⟩ := h
  have h2 : Inv se.1 := ⟨hb, hcan, hlink, hheld, hinj, hown, ⟨hcs, hcc⟩, ⟨hoa, hob⟩, h15⟩
  unfold octaveStep
  split_ifs with hk0 ho4 hk1 ho1
  · exact octaveSet_inv c se.1 h2 (by omega) (se.1.currentOctave + 1) (by omega) (by omega)
  · exact h2
  · exact octaveSet_inv c se.1 h2 (by omega) (se.1.currentOctave - 1) (by omega) (by omega)
  · exact h2
  · exact h2

/-- The release branch preserves the invariant. -/
theorem releaseStep_inv (c : Fin 4 × Fin 4) (s : PianoState) (hInv : Inv s)
    (hakm : s.activeKeyMatrix c = 1) : Inv (releaseStep c s).1 := by
  obtain ⟨hb, hcan, hlink, hheld, hinj, hown, ⟨hcs, hcc⟩, hoct, h15⟩ := hInv
  unfold releaseStep
  split_ifs with hch hlo
  · -- chromatic release
    have habmne : s.activeBuzzerMatrix c ≠ 0 := (hlink c).mpr ⟨hch.1, hch.2, hakm⟩
    obtain ⟨k, hk1, hk2⟩ := hheld c habmne
    have hab2 : ∀ k1, (if s.activeBuzzers k1 = s.activeBuzzerMatrix c then 0
        else s.activeBuzzers k1) = Function.update s.activeBuzzers k 0 k1 := by
      intro k1
      by_cases h : k1 = k
      · subst h
        rw [Function.update_same, if_pos (by rw [hk1, hk2])]
      · rw [Function.update_noteq h]
        rcases hcan k1 with h0 | hp
        · rw [if_neg (by rw [h0]; exact fun he => habmne he.symm)]
        · rw [if_neg (by
            rw [hp, hk1]
            intro he
            exact h (buzzerPins_injective k1 k he))]
    simp only [disableBuzzer, clearFrequency]
    refine ⟨?_, ?_, ?_, ?_, ?_, ?_, ⟨?_, ?_⟩, hoct, ?_⟩
    · intro c1
      simp only []
      by_cases h : c1 = c
      · subst h; rw [Function.update_same]; left; rfl
      · rw [Function.update_noteq h]; exact hb c1
    · intro k1
      simp only [hab2]
      by_cases h : k1 = k
      · subst h; rw [Function.update_same]; left; rfl
      · rw [Function.update_noteq h]; exact hcan k1
    · intro c1
      simp only []
      by_cases h : c1 = c
      · subst h
        rw [Function.update_same, Function.update_same]
        constructor
        · intro hne; exact absurd rfl hne
        · rintro ⟨-, -, h1⟩; exact absurd h1 (by norm_num)
      · rw [Function.update_noteq h, Function.update_noteq h]; exact hlink c1
    · intro c1
      simp only [hab2]
      intro hne1
      by_cases h : c1 = c
      · subst h; rw [Function.update_same] at hne1; exact absurd rfl hne1
      · rw [Function.update_noteq h] at hne1 ⊢
        obtain ⟨k1, hk1a, hk1b⟩ := hheld c1 hne1
        have hkk : k1 ≠ k := by
          intro he
          subst he
          have hcc1 : c1 = c := hinj c c1 habmne (by rw [hk1a, hk1])
          exact h hcc1
        exact ⟨k1, hk1a, by rw [Function.update_noteq hkk]; exact hk1b⟩
    · intro c1 c2
      simp only []
      intro h1 h2
      by_cases e1 : c1 = c
      · subst e1; rw [Function.update_same] at h1; exact absurd rfl h1
      · by_cases e2 : c2 = c
        · subst e2
          rw [Function.update_same] at h2
          rw [Function.update_noteq e1] at h1 h2
          exact absurd h2.symm h1
        · rw [Function.update_noteq e1] at h1 h2
          rw [Function.update_noteq e2] at h2
          exact hinj c1 c2 h1 h2
    · intro k1
      simp only [hab2]
      intro hk1c
      by_cases h : k1 = k
      · subst h
        rw [Function.update_same] at hk1c
        exact absurd hk1c.symm (buzzerPins_ne_zero k1)
      · rw [Function.update_noteq h] at hk1c
        obtain ⟨c1, hc1⟩ := hown k1 hk1c
        have hcc1 : c1 ≠ c := by
          intro he
          subst he
          rw [hk1] at hc1
          exact h (buzzerPins_injective k k1 hc1).symm
        exact ⟨c1, by rw [Function.update_noteq hcc1]; exact hc1⟩
    · simp only [hab2]
      have h1 := heldSlots_update s.activeBuzzers k 0
      rw [if_pos (by rw [hk2]; simpa using buzzerPins_ne_zero k)] at h1
      simp only [bne_self_eq_false, Bool.false_eq_true, if_false] at h1
      have he : (heldSlots fun k1 => Function.update s.activeBuzzers k 0 k1) =
          heldSlots (Function.update s.activeBuzzers k 0) := rfl
      omega
    · simp only []
      have h1 := activeCells_update s.activeBuzzerMatrix c 0
      rw [if_pos (by simpa using habmne)] at h1
      simp only [bne_self_eq_false, Bool.false_eq_true, if_false] at h1
      omega
    · intro c1 hk15
      simp only []
      by_cases h : c1 = c
      · subst h; rw [Function.update_same]
      · rw [Function.update_noteq h]; exact h15 c1 hk15
  · -- octave key release: only the key matrix entry is cleared
    have habm0 : s.activeBuzzerMatrix c = 0 := by
      by_contra hne
      exact hch ⟨((hlink c).mp hne).1, ((hlink c).mp hne).2.1⟩
    refine ⟨?_, hcan, ?_, hheld, hinj, hown, ⟨hcs, hcc⟩, hoct, ?_⟩
    · intro c1
      simp only []
      by_cases h : c1 = c
      · subst h; rw [Function.update_same]; left; rfl
      · rw [Function.update_noteq h]; exact hb c1
    · intro c1
      simp only []
      by_cases h : c1 = c
      · subst h
        constructor
        · intro hne; exact absurd hne (by simpa using habm0)
        · rintro ⟨h2, h14, -⟩; exact absurd ⟨h2, h14⟩ hch
      · rw [Function.update_noteq h]; exact hlink c1
    · intro c1 hk15
      simp only []
      by_cases h : c1 = c
      · subst h; rw [Function.update_same]
      · rw [Function.update_noteq h]; exact h15 c1 hk15
  · exact ⟨hb, hcan, hlink, hheld, hinj, hown, ⟨hcs, hcc⟩, hoct, h15⟩

/-- One cellStep preserves the invariant. -/
theorem cellStep_inv (u : Snapshot) (c : Fin 4 × Fin 4) (s : PianoState)
    (h : Inv s) : Inv (cellStep u c s).1 := by
  unfold cellStep
  by_cases hp : u c = 1 ∧ s.activeKeyMatrix c = 0
  · rw [if_pos hp]
    apply octaveStep_inv
    by_cases hcnt : s.buzzerCount < 4
    · rw [if_pos hcnt]
      by_cases hch : 2 ≤ keys c ∧ keys c ≤ 14
      · rw [if_pos hch]; exact pressChromatic_inv c s h hp.2 hch hcnt
      · rw [if_neg hch]; exact h
    · rw [if_neg hcnt]; exact h
  · rw [if_neg hp]
    by_cases hr : u c = 0 ∧ s.activeKeyMatrix c = 1
    · rw [if_pos hr]; exact releaseStep_inv c s h hr.2
    · rw [if_neg hr]; exact h

/-- foldCells preserves the invariant. -/
theorem foldCells_inv (u : Snapshot) (l : List (Fin 4 × Fin 4)) :
    ∀ s, Inv s → Inv (foldCells u l s).1 := by
  induction l with
  | nil => intro s h; exact h
  | cons c rest ih => intro s h; exact ih _ (cellStep_inv u c s h)

/-- updateKeys preserves the invariant. -/
theorem updateKeys_inv (u : Snapshot) (s : PianoState) (h : Inv s) :
    Inv (updateKeys u s).1 :=
  foldCells_inv u cellsList s h

/-- Any run of snapshots preserves the invariant. -/
theorem runUpdates_inv (snaps : List Snapshot) :
    ∀ s, Inv s → Inv (runUpdates s snaps) := by
  induction snaps with
  | nil => intro s h; exact h
  | cons u rest ih => intro s h; exact ih _ (updateKeys_inv u s h)

/-- The startup state satisfies the invariant. -/
theorem Inv_initState : Inv initState := by decide

/-- The octave branches do not touch the key matrix of other cells. -/
theorem octaveStep_akm_frame (c : Fin 4 × Fin 4) (se : PianoState × List Event)
    (c1 : Fin 4 × Fin 4) (hne : c1 ≠ c) :
    (octaveStep c se).1.activeKeyMatrix c1 = se.1.activeKeyMatrix c1 := by
  unfold octaveStep
  split_ifs <;> first
    | rfl
    | (simp only []; rw [Function.update_noteq hne])

/-- The chromatic press branch does not touch the key matrix of other
cells. -/
theorem pressChromatic_akm_frame (c : Fin 4 × Fin 4) (s : PianoState)
    (c1 : Fin 4 × Fin 4) (hne : c1 ≠ c) :
    (pressChromatic c s).1.activeKeyMatrix c1 = s.activeKeyMatrix c1 := by
  unfold pressChromatic
  simp only []
  rw [Function.update_noteq hne]

/-- The release branch does not touch the key matrix of other cells. -/
theorem releaseStep_akm_frame (c : Fin 4 × Fin 4) (s : PianoState)
    (c1 : Fin 4 × Fin 4) (hne : c1 ≠ c) :
    (releaseStep c s).1.activeKeyMatrix c1 = s.activeKeyMatrix c1 := by
  unfold releaseStep
  split_ifs <;> first
    | rfl
    | (simp only [disableBuzzer]; rw [Function.update_noteq hne])

/-- cellStep only changes the key matrix at its own cell. -/
theorem cellStep_akm_frame (u : Snapshot) (c : Fin 4 × Fin 4) (s : PianoState)
    (c1 : Fin 4 × Fin 4) (hne : c1 ≠ c) :
    (cellStep u c s).1.activeKeyMatrix c1 = s.activeKeyMatrix c1 := by
  unfold cellStep
  split_ifs with hp hcnt hch hr
  · rw [octaveStep_akm_frame c _ c1 hne]
    exact pressChromatic_akm_frame c s c1 hne
  · rw [octaveStep_akm_frame c _ c1 hne]
  · rw [octaveStep_akm_frame c _ c1 hne]
  · exact releaseStep_akm_frame c s c1 hne
  · rfl

/-- foldCells over cells not containing c leaves the key matrix at c
unchanged. -/
theorem foldCells_akm_frame (u : Snapshot) (l : List (Fin 4 × Fin 4)) :
    ∀ s c, c ∉ l → (foldCells u l s).1.activeKeyMatrix c = s.activeKeyMatrix c := by
  induction l with
  | nil => intro s c _; rfl
  | cons c1 rest ih =>
    intro s c h
    simp only [foldCells]
    rw [ih _ c (fun hc => h (List.mem_cons.mpr (Or.inr hc)))]
    exact cellStep_akm_frame u c1 s c (fun he => h (he ▸ List.mem_cons_self c1 rest))

/-- A cell with no edge is a no-op. -/
theorem cellStep_no_edge (u : Snapshot) (c : Fin 4 × Fin 4) (s : PianoState)
    (h1 : ¬(u c = 1 ∧ s.activeKeyMatrix c = 0))
    (h2 : ¬(u c = 0 ∧ s.activeKeyMatrix c = 1)) : cellStep u c s = (s, []) := by
  unfold cellStep
  rw [if_neg h1, if_neg h2]

/-- A cell whose retained state already equals the snapshot is a no-op. -/
theorem cellStep_fixed (u : Snapshot) (c : Fin 4 × Fin 4) (s : PianoState)
    (h : s.activeKeyMatrix c = u c) : cellStep u c s = (s, []) := by
  apply cellStep_no_edge
  · rintro ⟨ha, hb2⟩
    rw [h, ha] at hb2
    norm_num at hb2
  · rintro ⟨ha, hb2⟩
    rw [h, ha] at hb2
    norm_num at hb2

/-- foldCells over cells whose retained state equals the snapshot is a
no-op with no events. -/
theorem foldCells_fixed (u : Snapshot) (l : List (Fin 4 × Fin 4)) :
    ∀ s, (∀ c ∈ l, s.activeKeyMatrix c = u c) → foldCells u l s = (s, []) := by
  induction l with
  | nil => intro s _; rfl
  | cons c rest ih =>
    intro s h
    simp only [foldCells]
    rw [cellStep_fixed u c s (h c (List.mem_cons_self c rest))]
    simp only []
    rw [ih s (fun c1 hc1 => h c1 (List.mem_cons.mpr (Or.inr hc1)))]
    rfl

/-- A release edge on a cell with a key other than 15 clears the key
matrix entry. -/
theorem cellStep_release_akm (u : Snapshot) (c : Fin 4 × Fin 4) (s : PianoState)
    (hu : u c = 0) (ha : s.activeKeyMatrix c = 1) (h15 : keys c ≠ 15) :
    (cellStep u c s).1.activeKeyMatrix c = 0 := by
  unfold cellStep
  rw [if_neg (by rintro ⟨h1c, -⟩; rw [hu] at h1c; norm_num at h1c), if_pos ⟨hu, ha⟩]
  unfold releaseStep
  have hr := keys_range c
  by_cases hch : 2 ≤ keys c ∧ keys c ≤ 14
  · rw [if_pos hch]
    simp only [disableBuzzer]
    rw [Function.update_same]
  · rw [if_neg hch, if_pos (by omega)]
    simp only []
    rw [Function.update_same]

/-- Where the key matrix ends up after a whole pass: it equals the
snapshot except on a press edge where no action was taken, which leaves
the cell at 0. -/
theorem foldCells_akm_mem (u : Snapshot) (hu : ∀ c, u c = 0 ∨ u c = 1)
    (l : List (Fin 4 × Fin 4)) :
    ∀ s, Inv s → l.Nodup → ∀ c ∈ l,
      (foldCells u l s).1.activeKeyMatrix c = u c ∨
      (u c = 1 ∧ (foldCells u l s).1.activeKeyMatrix c = 0) := by
  induction l with
  | nil => intro s _ _ c hc; exact absurd hc (List.not_mem_nil c)
  | cons c1 rest ih =>
    intro s hInv hnd c hc
    have hnd1 : c1 ∉ rest := (List.nodup_cons.mp hnd).1
    have hndr : rest.Nodup := (List.nodup_cons.mp hnd).2
    simp only [foldCells]
    rcases List.mem_cons.mp hc with hcc | hcr
    · subst hcc
      have hfr : (foldCells u rest (cellStep u c s).1).1.activeKeyMatrix c
          = (cellStep u c s).1.activeKeyMatrix c := foldCells_akm_frame u rest _ c hnd1
      have hb : akmBool s := by
        obtain ⟨x, -, -, -, -, -, -, -, -⟩ := hInv
        exact x
      have h15 : key15Clear s := by
        obtain ⟨-, -, -, -, -, -, -, -, x⟩ := hInv
        exact x
      rcases hu c with h0 | h1
      · rcases hb c with ha0 | ha1
        · have hno := cellStep_no_edge u c s
            (by rintro ⟨h1c, -⟩; rw [h0] at h1c; norm_num at h1c)
            (by rintro ⟨-, h2c⟩; rw [ha0] at h2c; norm_num at h2c)
          left
          rw [hfr, hno, h0, ha0]
        · have hne15 : keys c ≠ 15 := by
            intro h15e
            rw [h15 c h15e] at ha1
            norm_num at ha1
          left
          rw [hfr, cellStep_release_akm u c s h0 ha1 hne15, h0]
      · rcases hb c with ha0 | ha1
        · have hInv2 := cellStep_inv u c s hInv
          have hb2 : akmBool (cellStep u c s).1 := by
            obtain ⟨x, -, -, -, -, -, -, -, -⟩ := hInv2
            exact x
          rcases hb2 c with hz | ho
          · right
            exact ⟨h1, by rw [hfr]; exact hz⟩
          · left
            rw [hfr, ho, h1]
        · have hno := cellStep_no_edge u c s
            (by rintro ⟨-, h2c⟩; rw [ha1] at h2c; norm_num at h2c)
            (by rintro ⟨h1c, -⟩; rw [h1] at h1c; norm_num at h1c)
          left
          rw [hfr, hno, h1, ha1]
    · exact ih (cellStep u c1 s).1 (cellStep_inv u c1 s hInv) hndr c hcr

/-- updateKeys is a no-op with no events when the retained key matrix
already equals the snapshot cell for cell. -/
theorem updateKeys_fixed (u : Snapshot) (s : PianoState)
    (h : ∀ c, s.activeKeyMatrix c = u c) : updateKeys u s = (s, []) :=
  foldCells_fixed u cellsList s (fun c _ => h c)

/-- A press edge on a chromatic key while all four voices are bound is a
complete no-op: no event, no state change. -/
theorem cellStep_poolFull (u : Snapshot) (c : Fin 4 × Fin 4) (s : PianoState)
    (hcnt : s.buzzerCount = 4) (hu : u c = 1) (ha : s.activeKeyMatrix c = 0)
    (h2 : 2 ≤ keys c) (h14 : keys c ≤ 14) : cellStep u c s = (s, []) := by
  unfold cellStep
  rw [if_pos ⟨hu, ha⟩, if_neg (by omega)]
  unfold octaveStep
  rw [if_neg (by omega), if_neg (by omega)]

/-- A press on the key-0 cell while the octave is at the maximum 4 is a
complete no-op. -/
theorem cellStep_octaveUpMax (u : Snapshot) (c : Fin 4 × Fin 4) (s : PianoState)
    (hu : u c = 1) (hk : keys c = 0) (ho : s.currentOctave = 4) :
    cellStep u c s = (s, []) := by
  unfold cellStep
  by_cases ha : s.activeKeyMatrix c = 0
  · rw [if_pos ⟨hu, ha⟩]
    have hX : (if s.buzzerCount < 4 then
        (if 2 ≤ keys c ∧ keys c ≤ 14 then pressChromatic c s else (s, []))
        else (s, [])) = (s, []) := by
      split_ifs with hc1 hc2
      · exact absurd hc2.1 (by omega)
      · rfl
      · rfl
    rw [hX]
    unfold octaveStep
    rw [if_pos hk]
    simp only []
    rw [if_neg (by omega)]
  · rw [if_neg (by rintro ⟨-, h2c⟩; exact ha h2c),
      if_neg (by rintro ⟨h1c, -⟩; rw [hu] at h1c; norm_num at h1c)]

/-- A press on the key-1 cell while the octave is at the minimum 1 is a
complete no-op. -/
theorem cellStep_octaveDownMin (u : Snapshot) (c : Fin 4 × Fin 4) (s : PianoState)
    (hu : u c = 1) (hk : keys c = 1) (ho : s.currentOctave = 1) :
    cellStep u c s = (s, []) := by
  unfold cellStep
  by_cases ha : s.activeKeyMatrix c = 0
  · rw [if_pos ⟨hu, ha⟩]
    have hX : (if s.buzzerCount < 4 then
        (if 2 ≤ keys c ∧ keys c ≤ 14 then pressChromatic c s else (s, []))
        else (s, [])) = (s, []) := by
      split_ifs with hc1 hc2
      · exact absurd hc2.1 (by omega)
      · rfl
      · rfl
    rw [hX]
    unfold octaveStep
    rw [if_neg (by omega), if_pos hk]
    simp only []
    rw [if_neg (by omega)]
  · rw [if_neg (by rintro ⟨-, h2c⟩; exact ha h2c),
      if_neg (by rintro ⟨h1c, -⟩; rw [hu] at h1c; norm_num at h1c)]

/-- Full characterisation of a chromatic release edge under the
invariant: the slot bound to this very cell is freed (all other slots
are untouched), both matrices are cleared at the cell, the count drops
by one, exactly one tone-stop for the bound pin is emitted, and the
free-voice count grows by exactly one. -/
theorem cellStep_release (u : Snapshot) (c : Fin 4 × Fin 4) (s : PianoState)
    (hInv : Inv s) (hu : u c = 0) (ha : s.activeKeyMatrix c = 1)
    (h2 : 2 ≤ keys c) (h14 : keys c ≤ 14) :
    ∃ k, s.activeBuzzerMatrix c = buzzerPins k ∧
      s.activeBuzzers k = buzzerPins k ∧
      (cellStep u c s).1.activeBuzzers = Function.update s.activeBuzzers k 0 ∧
      (cellStep u c s).1.activeBuzzerMatrix = Function.update s.activeBuzzerMatrix c 0 ∧
      (cellStep u c s).1.activeKeyMatrix = Function.update s.activeKeyMatrix c 0 ∧
      (cellStep u c s).1.buzzerCount = s.buzzerCount - 1 ∧
      (cellStep u c s).2 = [Event.toneStop (s.activeBuzzerMatrix c)] ∧
      freeSlots (cellStep u c s).1.activeBuzzers = freeSlots s.activeBuzzers + 1 := by
  obtain ⟨hb, hcan, hlink, hheld, hinj, hown, ⟨hcs, hcc⟩, hoct, h15⟩ := hInv
  have habmne : s.activeBuzzerMatrix c ≠ 0 := (hlink c).mpr ⟨h2, h14, ha⟩
  obtain ⟨k, hk1, hk2⟩ := hheld c habmne
  have hstep : cellStep u c s =
      ({ s with
          activeKeyMatrix := Function.update s.activeKeyMatrix c 0,
          activeBuzzerMatrix := Function.update s.activeBuzzerMatrix c 0,
          activeBuzzers := fun k1 =>
            if s.activeBuzzers k1 = s.activeBuzzerMatrix c then 0 else s.activeBuzzers k1,
          buzzerCount := s.buzzerCount - 1 },
       [Event.toneStop (s.activeBuzzerMatrix c)]) := by
    unfold cellStep releaseStep
    rw [if_neg (by rintro ⟨h1c, -⟩; rw [hu] at h1c; norm_num at h1c),
      if_pos ⟨hu, ha⟩, if_pos ⟨h2, h14⟩]
    rfl
  have hab2 : (fun k1 =>
      if s.activeBuzzers k1 = s.activeBuzzerMatrix c then 0 else s.activeBuzzers k1) =
      Function.update s.activeBuzzers k 0 := by
    funext k1
    by_cases h : k1 = k
    · subst h
      rw [Function.update_same, if_pos (by rw [hk1, hk2])]
    · rw [Function.update_noteq h]
      rcases hcan k1 with h0 | hp
      · rw [if_neg (by rw [h0]; exact fun he => habmne he.symm)]
      · rw [if_neg (by
          rw [hp, hk1]
          intro he
          exact h (buzzerPins_injective k1 k he))]
  refine ⟨k, hk1, hk2, ?_, ?_, ?_, ?_, ?_, ?_⟩
  · rw [hstep]
    simp only []
    exact hab2
  · rw [hstep]
  · rw [hstep]
  · rw [hstep]
  · rw [hstep]
  · rw [hstep]
    simp only [hab2]
    have h1 := freeSlots_update s.activeBuzzers k 0
    rw [if_neg (by rw [hk2]; simpa using buzzerPins_ne_zero k)] at h1
    simp only [beq_self_eq_true, if_true] at h1
    omega

/-- C1: starting from the initial all-free state, after any sequence of
snapshots the number of bound voices buzzerCount never exceeds the pool
capacity 4; and a press edge on a chromatic key (2 <= key <= 14)
arriving while all 4 voices are bound produces no tone call and leaves
the whole state unchanged. -/
theorem C1_voicePoolCapacity (snaps : List Snapshot) (u : Snapshot) (c : Fin 4 × Fin 4) :
    (runUpdates initState snaps).buzzerCount ≤ 4 ∧
    ((runUpdates initState snaps).buzzerCount = 4 → u c = 1 →
      (runUpdates initState snaps).activeKeyMatrix c = 0 →
      2 ≤ keys c → keys c ≤ 14 →
      cellStep u c (runUpdates initState snaps) = (runUpdates initState snaps, [])) := by
  have hInv := runUpdates_inv snaps initState Inv_initState
  constructor
  · obtain ⟨-, -, -, -, -, -, ⟨hcs, -⟩, -, -⟩ := hInv
    have hle := heldSlots_le_four (runUpdates initState snaps).activeBuzzers
    omega
  · intro h4 hu ha h2 h14
    exact cellStep_poolFull u c _ h4 hu ha h2 h14

/-- Witness for C1: one snapshot binds keys 2, 3, 4, 5 (all four
voices); a fifth chromatic press on the key-6 cell is then a complete
no-op. -/
theorem C1_witness :
    (runUpdates initState
      [snapOf [((0 : Fin 4), (2 : Fin 4)), ((0 : Fin 4), (3 : Fin 4)),
        ((1 : Fin 4), (0 : Fin 4)), ((1 : Fin 4), (1 : Fin 4))]]).buzzerCount ≤ 4 ∧
    cellStep
      (snapOf [((0 : Fin 4), (2 : Fin 4)), ((0 : Fin 4), (3 : Fin 4)),
        ((1 : Fin 4), (0 : Fin 4)), ((1 : Fin 4), (1 : Fin 4)), ((1 : Fin 4), (2 : Fin 4))])
      ((1 : Fin 4), (2 : Fin 4))
      (runUpdates initState
        [snapOf [((0 : Fin 4), (2 : Fin 4)), ((0 : Fin 4), (3 : Fin 4)),
          ((1 : Fin 4), (0 : Fin 4)), ((1 : Fin 4), (1 : Fin 4))]]) =
      (runUpdates initState
        [snapOf [((0 : Fin 4), (2 : Fin 4)), ((0 : Fin 4), (3 : Fin 4)),
          ((1 : Fin 4), (0 : Fin 4)), ((1 : Fin 4), (1 : Fin 4))]], []) := by
  have h := C1_voicePoolCapacity
    [snapOf [((0 : Fin 4), (2 : Fin 4)), ((0 : Fin 4), (3 : Fin 4)),
      ((1 : Fin 4), (0 : Fin 4)), ((1 : Fin 4), (1 : Fin 4))]]
    (snapOf [((0 : Fin 4), (2 : Fin 4)), ((0 : Fin 4), (3 : Fin 4)),
      ((1 : Fin 4), (0 : Fin 4)), ((1 : Fin 4), (1 : Fin 4)), ((1 : Fin 4), (2 : Fin 4))])
    ((1 : Fin 4), (2 : Fin 4))
  exact ⟨h.1, h.2 (by decide) (by decide) (by decide) (by decide) (by decide)⟩

/-- C2 as stated is false: after updateKeys the retained activeKeyMatrix
does not always equal the snapshot.  At the initial state (octave 4) a
press on the cell of key 0 is dropped (the octave is already at its
maximum), so the cell stays 0 while the snapshot holds 1. -/
theorem C2_counterexample :
    (updateKeys (snapOf [((0 : Fin 4), (0 : Fin 4))]) initState).1.activeKeyMatrix
        ((0 : Fin 4), (0 : Fin 4)) ≠
      snapOf [((0 : Fin 4), (0 : Fin 4))] ((0 : Fin 4), (0 : Fin 4)) := by
  decide

/-- C2 amended: after updateKeys on a 0/1 snapshot from a state
satisfying the pool invariant, every cell of the retained matrix equals
the snapshot, except that a press edge on which no action was taken
leaves the cell at 0. -/
theorem C2_retainedMatrix (u : Snapshot) (s : PianoState)
    (hu : ∀ c, u c = 0 ∨ u c = 1) (hInv : Inv s) (c : Fin 4 × Fin 4) :
    (updateKeys u s).1.activeKeyMatrix c = u c ∨
    (u c = 1 ∧ (updateKeys u s).1.activeKeyMatrix c = 0) :=
  foldCells_akm_mem u hu cellsList s hInv nodup_cellsList c (mem_cellsList c)

/-- Witness for the amended C2 at a successful chromatic press. -/
theorem C2_witness :
    (updateKeys (snapOf [((0 : Fin 4), (2 : Fin 4))]) initState).1.activeKeyMatrix
        ((0 : Fin 4), (2 : Fin 4)) =
      snapOf [((0 : Fin 4), (2 : Fin 4))] ((0 : Fin 4), (2 : Fin 4)) ∨
    (snapOf [((0 : Fin 4), (2 : Fin 4))] ((0 : Fin 4), (2 : Fin 4)) = 1 ∧
      (updateKeys (snapOf [((0 : Fin 4), (2 : Fin 4))]) initState).1.activeKeyMatrix
        ((0 : Fin 4), (2 : Fin 4)) = 0) :=
  C2_retainedMatrix (snapOf [((0 : Fin 4), (2 : Fin 4))]) initState
    (by decide) (by decide) ((0 : Fin 4), (2 : Fin 4))

/-- C3 as stated is false: feeding the same snapshot twice can produce
an event on the second call.  With both octave cells pressed from the
initial state (octave 4), the first call drops the key-0 press (octave
at maximum) and then lowers the octave to 3 through key 1; the second
call re-attempts the dropped key-0 press, which now succeeds and emits
an octave change back to 4. -/
theorem C3_counterexample :
    (updateKeys (snapOf [((0 : Fin 4), (0 : Fin 4)), ((0 : Fin 4), (1 : Fin 4))])
        (updateKeys (snapOf [((0 : Fin 4), (0 : Fin 4)), ((0 : Fin 4), (1 : Fin 4))])
          initState).1).2 = [Event.octaveChange 4] ∧
    (updateKeys (snapOf [((0 : Fin 4), (0 : Fin 4)), ((0 : Fin 4), (1 : Fin 4))])
        initState).1.currentOctave = 3 := by
  decide

/-- C3 amended: the second call with the same snapshot produces no
events and no state change provided every edge of the first call took
effect, that is, the retained matrix after the first call equals the
snapshot cell for cell.  Dropped presses are re-attempted and may
produce events, as the counterexample shows. -/
theorem C3_idempotentDiff (u : Snapshot) (s : PianoState)
    (h : ∀ c, (updateKeys u s).1.activeKeyMatrix c = u c) :
    updateKeys u (updateKeys u s).1 = ((updateKeys u s).1, []) :=
  updateKeys_fixed u (updateKeys u s).1 h

/-- Witness for the amended C3: one chromatic press from the initial
state; the second identical snapshot is a no-op. -/
theorem C3_witness :
    updateKeys (snapOf [((0 : Fin 4), (2 : Fin 4))])
        (updateKeys (snapOf [((0 : Fin 4), (2 : Fin 4))]) initState).1 =
      ((updateKeys (snapOf [((0 : Fin 4), (2 : Fin 4))]) initState).1, []) :=
  C3_idempotentDiff (snapOf [((0 : Fin 4), (2 : Fin 4))]) initState (by decide)

/-- C4 as stated is false: the claim says a press on the key-0 cell
decreases the octave.  In the code key 0 is the octave-up key: from
octave 2 (above the minimum) a press on the key-0 cell raises the
octave to 3, not 1. -/
theorem C4_counterexample :
    (updateKeys (snapOf [((0 : Fin 4), (0 : Fin 4))])
        { initState with currentOctave := 2 }).1.currentOctave = 3 ∧
    (updateKeys (snapOf [((0 : Fin 4), (0 : Fin 4))])
        { initState with currentOctave := 2 }).1.currentOctave ≠ 2 - 1 := by
  decide

/-- C4 amended: the key map enumerates cells row-major; a press edge on
the key-0 cell increments the octave when below the maximum 4, a press
edge on the key-1 cell decrements it when above the minimum 1, keys
2..14 are chromatic (the press marks the cell active and leaves the
octave alone), and key 15 is unused (its press is a complete no-op). -/
theorem C4_keyRoles (u : Snapshot) (c : Fin 4 × Fin 4) (s : PianoState)
    (hu : u c = 1) (ha : s.activeKeyMatrix c = 0) :
    keys c = 4 * (c.1 : Int) + (c.2 : Int) ∧
    (keys c = 0 → s.currentOctave < 4 →
      (cellStep u c s).1.currentOctave = s.currentOctave + 1) ∧
    (keys c = 1 → 1 < s.currentOctave →
      (cellStep u c s).1.currentOctave = s.currentOctave - 1) ∧
    (2 ≤ keys c → keys c ≤ 14 → s.buzzerCount < 4 →
      (cellStep u c s).1.activeKeyMatrix c = 1 ∧
      (cellStep u c s).1.currentOctave = s.currentOctave) ∧
    (keys c = 15 → cellStep u c s = (s, [])) := by
  refine ⟨keys_rowMajor c, ?_, ?_, ?_, ?_⟩
  · intro hk0 ho
    unfold cellStep
    rw [if_pos ⟨hu, ha⟩]
    have hX : (if s.buzzerCount < 4 then
        (if 2 ≤ keys c ∧ keys c ≤ 14 then pressChromatic c s else (s, []))
        else (s, [])) = (s, []) := by
      split_ifs with hc1 hc2
      · exact absurd hc2.1 (by omega)
      · rfl
      · rfl
    rw [hX]
    unfold octaveStep
    rw [if_pos hk0]
    simp only []
    rw [if_pos ho]
  · intro hk1 ho
    unfold cellStep
    rw [if_pos ⟨hu, ha⟩]
    have hX : (if s.buzzerCount < 4 then
        (if 2 ≤ keys c ∧ keys c ≤ 14 then pressChromatic c s else (s, []))
        else (s, [])) = (s, []) := by
      split_ifs with hc1 hc2
      · exact absurd hc2.1 (by omega)
      · rfl
      · rfl
    rw [hX]
    unfold octaveStep
    rw [if_neg (by omega), if_pos hk1]
    simp only []
    rw [if_pos ho]
  · intro h2 h14 hcnt
    unfold cellStep
    rw [if_pos ⟨hu, ha⟩, if_pos hcnt, if_pos ⟨h2, h14⟩]
    unfold octaveStep
    rw [if_neg (by omega), if_neg (by omega)]
    unfold pressChromatic
    simp only []
    refine ⟨Function.update_same c 1 s.activeKeyMatrix, ?_⟩
    trivial
  · intro h15k
    unfold cellStep
    rw [if_pos ⟨hu, ha⟩]
    have hX : (if s.buzzerCount < 4 then
        (if 2 ≤ keys c ∧ keys c ≤ 14 then pressChromatic c s else (s, []))
        else (s, [])) = (s, []) := by
      split_ifs with hc1 hc2
      · exact absurd hc2.2 (by omega)
      · rfl
      · rfl
    rw [hX]
    unfold octaveStep
    rw [if_neg (by omega), if_neg (by omega)]

/-- Witness for the amended C4 at all four kinds of key: octave up from
octave 2, octave down from octave 2, the chromatic key 2, and the
unused key 15. -/
theorem C4_witness :
    (cellStep (snapOf [((0 : Fin 4), (0 : Fin 4))]) ((0 : Fin 4), (0 : Fin 4))
        { initState with currentOctave := 2 }).1.currentOctave =
      ({ initState with currentOctave := 2 } : PianoState).currentOctave + 1 ∧
    (cellStep (snapOf [((0 : Fin 4), (1 : Fin 4))]) ((0 : Fin 4), (1 : Fin 4))
        { initState with currentOctave := 2 }).1.currentOctave =
      ({ initState with currentOctave := 2 } : PianoState).currentOctave - 1 ∧
    (cellStep (snapOf [((0 : Fin 4), (2 : Fin 4))]) ((0 : Fin 4), (2 : Fin 4))
        initState).1.activeKeyMatrix ((0 : Fin 4), (2 : Fin 4)) = 1 ∧
    cellStep (snapOf [((3 : Fin 4), (3 : Fin 4))]) ((3 : Fin 4), (3 : Fin 4)) initState =
      (initState, []) := by
  refine ⟨?_, ?_, ?_, ?_⟩
  · exact (C4_keyRoles (snapOf [((0 : Fin 4), (0 : Fin 4))]) ((0 : Fin 4), (0 : Fin 4))
      { initState with currentOctave := 2 } (by decide) (by decide)).2.1
      (by decide) (by decide)
  · exact (C4_keyRoles (snapOf [((0 : Fin 4), (1 : Fin 4))]) ((0 : Fin 4), (1 : Fin 4))
      { initState with currentOctave := 2 } (by decide) (by decide)).2.2.1
      (by decide) (by decide)
  · exact ((C4_keyRoles (snapOf [((0 : Fin 4), (2 : Fin 4))]) ((0 : Fin 4), (2 : Fin 4))
      initState (by decide) (by decide)).2.2.2.1
      (by decide) (by decide) (by decide)).1
  · exact (C4_keyRoles (snapOf [((3 : Fin 4), (3 : Fin 4))]) ((3 : Fin 4), (3 : Fin 4))
      initState (by decide) (by decide)).2.2.2.2 (by decide)

/-- C6: under the pool invariant, a release edge on an active chromatic
cell frees exactly the slot bound to that cell and no other slot, clears
both matrices at the cell, decrements buzzerCount, emits exactly one
tone-stop for the bound pin, and strictly increases the free-voice count
by one. -/
theorem C6_releaseRoundTrip (u : Snapshot) (c : Fin 4 × Fin 4) (s : PianoState)
    (hInv : Inv s) (hu : u c = 0) (ha : s.activeKeyMatrix c = 1)
    (h2 : 2 ≤ keys c) (h14 : keys c ≤ 14) :
    ∃ k, s.activeBuzzerMatrix c = buzzerPins k ∧
      s.activeBuzzers k = buzzerPins k ∧
      (cellStep u c s).1.activeBuzzers = Function.update s.activeBuzzers k 0 ∧
      (cellStep u c s).1.activeBuzzerMatrix = Function.update s.activeBuzzerMatrix c 0 ∧
      (cellStep u c s).1.activeKeyMatrix = Function.update s.activeKeyMatrix c 0 ∧
      (cellStep u c s).1.buzzerCount = s.buzzerCount - 1 ∧
      (cellStep u c s).2 = [Event.toneStop (s.activeBuzzerMatrix c)] ∧
      freeSlots (cellStep u c s).1.activeBuzzers = freeSlots s.activeBuzzers + 1 :=
  cellStep_release u c s hInv hu ha h2 h14

/-- Witness for C6: press key 2 from the initial state, then release
it. -/
theorem C6_witness :
    ∃ k, (runUpdates initState [snapOf [((0 : Fin 4), (2 : Fin 4))]]).activeBuzzerMatrix
        ((0 : Fin 4), (2 : Fin 4)) = buzzerPins k ∧
      (runUpdates initState [snapOf [((0 : Fin 4), (2 : Fin 4))]]).activeBuzzers k =
        buzzerPins k ∧
      (cellStep (snapOf []) ((0 : Fin 4), (2 : Fin 4))
          (runUpdates initState [snapOf [((0 : Fin 4), (2 : Fin 4))]])).1.activeBuzzers =
        Function.update
          (runUpdates initState [snapOf [((0 : Fin 4), (2 : Fin 4))]]).activeBuzzers k 0 ∧
      (cellStep (snapOf []) ((0 : Fin 4), (2 : Fin 4))
          (runUpdates initState [snapOf [((0 : Fin 4), (2 : Fin 4))]])).1.activeBuzzerMatrix =
        Function.update
          (runUpdates initState [snapOf [((0 : Fin 4), (2 : Fin 4))]]).activeBuzzerMatrix
          ((0 : Fin 4), (2 : Fin 4)) 0 ∧
      (cellStep (snapOf []) ((0 : Fin 4), (2 : Fin 4))
          (runUpdates initState [snapOf [((0 : Fin 4), (2 : Fin 4))]])).1.activeKeyMatrix =
        Function.update
          (runUpdates initState [snapOf [((0 : Fin 4), (2 : Fin 4))]]).activeKeyMatrix
          ((0 : Fin 4), (2 : Fin 4)) 0 ∧
      (cellStep (snapOf []) ((0 : Fin 4), (2 : Fin 4))
          (runUpdates initState [snapOf [((0 : Fin 4), (2 : Fin 4))]])).1.buzzerCount =
        (runUpdates initState [snapOf [((0 : Fin 4), (2 : Fin 4))]]).buzzerCount - 1 ∧
      (cellStep (snapOf []) ((0 : Fin 4), (2 : Fin 4))
          (runUpdates initState [snapOf [((0 : Fin 4), (2 : Fin 4))]])).2 =
        [Event.toneStop
          ((runUpdates initState [snapOf [((0 : Fin 4), (2 : Fin 4))]]).activeBuzzerMatrix
            ((0 : Fin 4), (2 : Fin 4)))] ∧
      freeSlots (cellStep (snapOf []) ((0 : Fin 4), (2 : Fin 4))
          (runUpdates initState [snapOf [((0 : Fin 4), (2 : Fin 4))]])).1.activeBuzzers =
        freeSlots
          (runUpdates initState [snapOf [((0 : Fin 4), (2 : Fin 4))]]).activeBuzzers + 1 :=
  C6_releaseRoundTrip (snapOf []) ((0 : Fin 4), (2 : Fin 4))
    (runUpdates initState [snapOf [((0 : Fin 4), (2 : Fin 4))]])
    (by decide) (by decide) (by decide) (by decide) (by decide)

/-- C7: from the initial state the octave always stays within [1, 4];
moreover a press edge on the octave-up cell (key 0) at the maximum 4 is
a complete no-op, and a press edge on the octave-down cell (key 1) at
the minimum 1 is a complete no-op: no wrap, no error, no state change. -/
theorem C7_octaveSaturation (snaps : List Snapshot) (u : Snapshot)
    (c : Fin 4 × Fin 4) (s : PianoState) :
    (1 ≤ (runUpdates initState snaps).currentOctave ∧
      (runUpdates initState snaps).currentOctave ≤ 4) ∧
    (u c = 1 → keys c = 0 → s.currentOctave = 4 → cellStep u c s = (s, [])) ∧
    (u c = 1 → keys c = 1 → s.currentOctave = 1 → cellStep u c s = (s, [])) := by
  refine ⟨?_, ?_, ?_⟩
  · have hInv := runUpdates_inv snaps initState Inv_initState
    obtain ⟨-, -, -, -, -, -, -, ⟨h1, h4⟩, -⟩ := hInv
    exact ⟨h1, h4⟩
  · intro hu hk ho
    exact cellStep_octaveUpMax u c s hu hk ho
  · intro hu hk ho
    exact cellStep_octaveDownMin u c s hu hk ho

/-- Witness for C7: octave-up pressed at the maximum (the initial
octave 4) and octave-down pressed at the minimum 1. -/
theorem C7_witness :
    (1 ≤ (runUpdates initState []).currentOctave ∧
      (runUpdates initState []).currentOctave ≤ 4) ∧
    cellStep (snapOf [((0 : Fin 4), (0 : Fin 4))]) ((0 : Fin 4), (0 : Fin 4)) initState =
      (initState, []) ∧
    cellStep (snapOf [((0 : Fin 4), (1 : Fin 4))]) ((0 : Fin 4), (1 : Fin 4))
        { initState with currentOctave := 1 } =
      ({ initState with currentOctave := 1 }, []) := by
  refine ⟨?_, ?_, ?_⟩
  · exact (C7_octaveSaturation [] (snapOf []) ((0 : Fin 4), (0 : Fin 4)) initState).1
  · exact (C7_octaveSaturation [] (snapOf [((0 : Fin 4), (0 : Fin 4))])
      ((0 : Fin 4), (0 : Fin 4)) initState).2.1 (by decide) (by decide) (by decide)
  · exact (C7_octaveSaturation [] (snapOf [((0 : Fin 4), (1 : Fin 4))])
      ((0 : Fin 4), (1 : Fin 4)) { initState with currentOctave := 1 }).2.2
      (by decide) (by decide) (by decide)

/-- C8: with the configured timeout of 10 seconds and 48 ms added per
cycle, no keepalive pulse is issued during the first 104 cycles, and the
105th cycle issues the first pulse and resets the accumulator to 0
(48 * 104 = 4992 < 5000 <= 48 * 105 = 5040). -/
theorem C8_watchdogTiming :
    (∀ n, n < 105 → (wdRun 10 n).2 = 0) ∧ wdRun 10 105 = (0, 1) := by
  constructor
  · decide
  · decide

/-- Witness for C8 at cycle 104 and cycle 105. -/
theorem C8_witness : (wdRun 10 104).2 = 0 ∧ wdRun 10 105 = (0, 1) :=
  ⟨C8_watchdogTiming.1 104 (by decide), C8_watchdogTiming.2⟩

set_option maxRecDepth 8000 in
/-- C9 as stated is false in two ways at explicit inputs.  First, the
file consisting of the single line initialOctave: 4294967299 carries an
octave entry far outside [1,4], yet the 32-bit accumulator of
setValuesFromConfig wraps 4294967299 to 3, which passes the range check
and is kept with no warning, where the claim demands the default 4 with
a warning.  Second, a logFileLocation line whose path part is 150
characters long makes the name-copy loop write 150 characters plus the
0 terminator (indices 0 through 150) into the 100-byte logFileLocation
buffer of main, an out-of-bounds write, so configuration parsing can
make the program fail. -/
theorem C9_counterexample :
    (setValuesFromConfig
      [[105, 110, 105, 116, 105, 97, 108, 79, 99, 116, 97, 118, 101, 58, 32,
        52, 50, 57, 52, 57, 54, 55, 50, 57, 57, 10]]).1.1 = 3 ∧
    (setValuesFromConfig
      [[105, 110, 105, 116, 105, 97, 108, 79, 99, 116, 97, 118, 101, 58, 32,
        52, 50, 57, 52, 57, 54, 55, 50, 57, 57, 10]]).2.1.1 = false ∧
    ((configScan
      [[105, 110, 105, 116, 105, 97, 108, 79, 99, 116, 97, 118, 101, 58, 32, 52, 10],
       [119, 97, 116, 99, 104, 68, 111, 103, 84, 105, 109, 101, 114, 58, 32, 49, 48, 10],
       ([108, 111, 103, 70, 105, 108, 101, 76, 111, 99, 97, 116, 105, 111, 110, 58, 32] ++
         List.replicate 150 120 ++ [10])]
      0 0 0 0).2.2).map List.length = some 150 := by
  decide

/-- C9 amended: after setValuesFromConfig the octave value lies in
[1,4] and the watchdog timer in [1,15]: when the signed 32-bit value
parsed for the octave is outside [1,4] (in particular when the entry is
missing, leaving 0) it is replaced by the default 4 with a warning, and
when it is inside [1,4] it is kept with no warning - even if the value
in the file was huge and only wrapped into range; similarly the timer
with [1,15] and default 10.  Parsing of the two numbers is total, but
the log-file-name copy is not bounds-checked, so configuration parsing
is not crash-free (see the counterexample). -/
theorem C9_configClamp (file : List (List Nat)) :
    (1 ≤ (setValuesFromConfig file).1.1 ∧ (setValuesFromConfig file).1.1 ≤ 4) ∧
    (1 ≤ (setValuesFromConfig file).1.2 ∧ (setValuesFromConfig file).1.2 ≤ 15) ∧
    (intOfUInt32 (configScan file 0 0 0 0).1 < 1 ∨
        4 < intOfUInt32 (configScan file 0 0 0 0).1 →
      (setValuesFromConfig file).1.1 = 4 ∧ (setValuesFromConfig file).2.1.1 = true) ∧
    (1 ≤ intOfUInt32 (configScan file 0 0 0 0).1 →
      intOfUInt32 (configScan file 0 0 0 0).1 ≤ 4 →
      (setValuesFromConfig file).1.1 = intOfUInt32 (configScan file 0 0 0 0).1 ∧
      (setValuesFromConfig file).2.1.1 = false) ∧
    (intOfUInt32 (configScan file 0 0 0 0).2.1 < 1 ∨
        15 < intOfUInt32 (configScan file 0 0 0 0).2.1 →
      (setValuesFromConfig file).1.2 = 10 ∧ (setValuesFromConfig file).2.1.2 = true) ∧
    (1 ≤ intOfUInt32 (configScan file 0 0 0 0).2.1 →
      intOfUInt32 (configScan file 0 0 0 0).2.1 ≤ 15 →
      (setValuesFromConfig file).1.2 = intOfUInt32 (configScan file 0 0 0 0).2.1 ∧
      (setValuesFromConfig file).2.1.2 = false) := by
  by_cases h1 : intOfUInt32 (configScan file 0 0 0 0).1 < 1 ∨
      4 < intOfUInt32 (configScan file 0 0 0 0).1
  · by_cases h2 : intOfUInt32 (configScan file 0 0 0 0).2.1 < 1 ∨
        15 < intOfUInt32 (configScan file 0 0 0 0).2.1
    · have hv : setValuesFromConfig file =
          ((4, 10), (true, true), (configScan file 0 0 0 0).2.2) := by
        unfold setValuesFromConfig
        simp only []
        rw [if_pos h1, if_pos h2]
      rw [hv]
      refine ⟨⟨?_, ?_⟩, ⟨?_, ?_⟩,
        fun h => ⟨by simp, by simp⟩,
        fun ha hb => absurd h1 (by omega),
        fun h => ⟨by simp, by simp⟩,
        fun ha hb => absurd h2 (by omega)⟩ <;> (simp only []; omega)
    · have hv : setValuesFromConfig file =
          ((4, intOfUInt32 (configScan file 0 0 0 0).2.1), (true, false),
            (configScan file 0 0 0 0).2.2) := by
        unfold setValuesFromConfig
        simp only []
        rw [if_pos h1, if_neg h2]
      rw [hv]
      refine ⟨⟨?_, ?_⟩, ⟨?_, ?_⟩,
        fun h => ⟨by simp, by simp⟩,
        fun ha hb => absurd h1 (by omega),
        fun h => absurd h h2,
        fun ha hb => ⟨by simp, by simp⟩⟩ <;> (simp only []; omega)
  · by_cases h2 : intOfUInt32 (configScan file 0 0 0 0).2.1 < 1 ∨
        15 < intOfUInt32 (configScan file 0 0 0 0).2.1
    · have hv : setValuesFromConfig file =
          ((intOfUInt32 (configScan file 0 0 0 0).1, 10), (false, true),
            (configScan file 0 0 0 0).2.2) := by
        unfold setValuesFromConfig
        simp only []
        rw [if_neg h1, if_pos h2]
      rw [hv]
      refine ⟨⟨?_, ?_⟩, ⟨?_, ?_⟩,
        fun h => absurd h h1,
        fun ha hb => ⟨by simp, by simp⟩,
        fun h => ⟨by simp, by simp⟩,
        fun ha hb => absurd h2 (by omega)⟩ <;> (simp only []; omega)
    · have hv : setValuesFromConfig file =
          ((intOfUInt32 (configScan file 0 0 0 0).1,
            intOfUInt32 (configScan file 0 0 0 0).2.1), (false, false),
            (configScan file 0 0 0 0).2.2) := by
        unfold setValuesFromConfig
        simp only []
        rw [if_neg h1, if_neg h2]
      rw [hv]
      refine ⟨⟨?_, ?_⟩, ⟨?_, ?_⟩,
        fun h => absurd h h1,
        fun ha hb => ⟨by simp, by simp⟩,
        fun h => absurd h h2,
        fun ha hb => ⟨by simp, by simp⟩⟩ <;> (simp only []; omega)

/-- Witness for the amended C9: the empty file parses both residues as
0, so both defaults and both warnings fire; a file with valid entries 3
and 12 keeps both values with no warning. -/
theorem C9_witness :
    (1 ≤ (setValuesFromConfig []).1.1 ∧ (setValuesFromConfig []).1.1 ≤ 4) ∧
    ((setValuesFromConfig []).1.1 = 4 ∧ (setValuesFromConfig []).2.1.1 = true) ∧
    ((setValuesFromConfig []).1.2 = 10 ∧ (setValuesFromConfig []).2.1.2 = true) ∧
    ((setValuesFromConfig [[58, 32, 51, 10], [58, 32, 49, 50, 10]]).1.1 =
        intOfUInt32 (configScan [[58, 32, 51, 10], [58, 32, 49, 50, 10]] 0 0 0 0).1 ∧
      (setValuesFromConfig [[58, 32, 51, 10], [58, 32, 49, 50, 10]]).2.1.1 = false) ∧
    ((setValuesFromConfig [[58, 32, 51, 10], [58, 32, 49, 50, 10]]).1.2 =
        intOfUInt32 (configScan [[58, 32, 51, 10], [58, 32, 49, 50, 10]] 0 0 0 0).2.1 ∧
      (setValuesFromConfig [[58, 32, 51, 10], [58, 32, 49, 50, 10]]).2.1.2 = false) :=
  ⟨(C9_configClamp []).1,
    (C9_configClamp []).2.2.1 (by decide),
    (C9_configClamp []).2.2.2.2.1 (by decide),
    (C9_configClamp [[58, 32, 51, 10], [58, 32, 49, 50, 10]]).2.2.2.1
      (by decide) (by decide),
    (C9_configClamp [[58, 32, 51, 10], [58, 32, 49, 50, 10]]).2.2.2.2.2
      (by decide) (by decide)⟩

/-- C10: from the initial state, after any sequence of snapshots,
buzzerCount equals the number of nonzero activeBuzzers slots and equals
the number of cells with a nonzero activeBuzzerMatrix entry; hence it
stays in [0, 4].  Moreover every active chromatic cell (the only cells
whose release invokes disableBuzzer) carries a nonzero pin that is
currently held in activeBuzzers, so disableBuzzer is only ever invoked
with a held pin. -/
theorem C10_bookkeeping (snaps : List Snapshot) :
    (runUpdates initState snaps).buzzerCount =
      (heldSlots (runUpdates initState snaps).activeBuzzers : Int) ∧
    (runUpdates initState snaps).buzzerCount =
      (activeCells (runUpdates initState snaps).activeBuzzerMatrix : Int) ∧
    0 ≤ (runUpdates initState snaps).buzzerCount ∧
    (runUpdates initState snaps).buzzerCount ≤ 4 ∧
    (∀ c, 2 ≤ keys c → keys c ≤ 14 →
      (runUpdates initState snaps).activeKeyMatrix c = 1 →
      (runUpdates initState snaps).activeBuzzerMatrix c ≠ 0 ∧
      ∃ k, (runUpdates initState snaps).activeBuzzers k =
        (runUpdates initState snaps).activeBuzzerMatrix c) := by
  have hInv := runUpdates_inv snaps initState Inv_initState
  obtain ⟨-, -, hlink, hheld, -, -, ⟨hcs, hcc⟩, -, -⟩ := hInv
  have hle := heldSlots_le_four (runUpdates initState snaps).activeBuzzers
  refine ⟨hcs, hcc, by omega, by omega, ?_⟩
  intro c h2 h14 ha
  have hne : (runUpdates initState snaps).activeBuzzerMatrix c ≠ 0 :=
    (hlink c).mpr ⟨h2, h14, ha⟩
  obtain ⟨k, hk1, hk2⟩ := hheld c hne
  exact ⟨hne, k, by rw [hk1, hk2]⟩

/-- Witness for C10 after one snapshot pressing key 2. -/
theorem C10_witness :
    (runUpdates initState [snapOf [((0 : Fin 4), (2 : Fin 4))]]).buzzerCount =
      (heldSlots (runUpdates initState
        [snapOf [((0 : Fin 4), (2 : Fin 4))]]).activeBuzzers : Int) ∧
    (runUpdates initState [snapOf [((0 : Fin 4), (2 : Fin 4))]]).buzzerCount ≤ 4 ∧
    ((runUpdates initState [snapOf [((0 : Fin 4), (2 : Fin 4))]]).activeBuzzerMatrix
        ((0 : Fin 4), (2 : Fin 4)) ≠ 0 ∧
      ∃ k, (runUpdates initState [snapOf [((0 : Fin 4), (2 : Fin 4))]]).activeBuzzers k =
        (runUpdates initState [snapOf [((0 : Fin 4), (2 : Fin 4))]]).activeBuzzerMatrix
          ((0 : Fin 4), (2 : Fin 4))) :=
  ⟨(C10_bookkeeping [snapOf [((0 : Fin 4), (2 : Fin 4))]]).1,
    (C10_bookkeeping [snapOf [((0 : Fin 4), (2 : Fin 4))]]).2.2.2.1,
    (C10_bookkeeping [snapOf [((0 : Fin 4), (2 : Fin 4))]]).2.2.2.2
      ((0 : Fin 4), (2 : Fin 4)) (by decide) (by decide) (by decide)⟩

end PiAno
